import Mathlib

/-!
Shallow embedding of `src/builds.ts` (the build-history resolution and
artifact-acquisition pipeline of the vscode-bisect extension).

Conventions of the embedding:
* The enums `Runtime`, `Quality`, `Flavor`, `Platform`, `Arch` and the helper
  `isDockerCliFlavor` live in `constants.ts`, which is not part of the sources;
  they are reconstructed from their use sites in `builds.ts` and from the spec.
* Effectful primitives (`readFileSync`+`JSON.parse`, `jsonGet`, `fileGet`,
  `exists`, `computeSHA256`, `rmSync`, `unzip`, `spawnSync`, the host
  `platform`/`arch` globals and the `Date` constructor) are modelled by an
  explicit environment `Env`; every embedded function additionally returns the
  ordered list of observable side effects (`Event`) it performed, so that
  claims about "zero network calls" or "the file is left on disk" are
  statements about that trace.
* JavaScript numbers that carry timestamps are modelled as `Int`
  (epoch milliseconds); `Number.MAX_VALUE` is its exact integer value
  `2^1024 - 2^971`; JS truthiness of `build.date` is modelled by
  `dateTruthy` (`undefined` and `0` are falsy).
* Console logging is outside the spec's scope; only the two log lines that
  claims talk about (history-load failure, exclusion count) are kept as
  trace events.
-/

inductive Runtime
  | desktopLocal | webLocal | webRemote
  deriving DecidableEq, Repr

inductive Quality
  | stable | insider | vscodiumInsider
  deriving DecidableEq, Repr

inductive Platform
  | macOSX64 | macOSArm | linuxX64 | linuxArm | windowsX64 | windowsArm
  deriving DecidableEq, Repr

inductive Arch
  | x64 | arm64 | armhf
  deriving DecidableEq, Repr

/-- Flavors used in `builds.ts`. The `dockerCli` constructor stands for the
container-targeted CLI flavors. Modelled from the spec: packaging variants
"default archive, CLI-only, OS installer, container-targeted, universal
binary"; `constants.ts` itself is not among the sources. -/
inductive Flavor
  | default | cli | darwinUniversal
  | windowsSystemInstaller | windowsUserInstaller
  | linuxDeb | linuxRPM | linuxSnap
  | dockerCli
  deriving DecidableEq, Repr

/-- Modelled from the spec: a flavor meaning "packaged inside a container
image" is explicitly unsupported by the acquisition engine. -/
def isDockerCliFlavor : Flavor → Bool
  | .dockerCli => true
  | _ => false

/-- String value of the `Quality` enum (TS compares it with the literals
`'insider'` / `'stable'` and interpolates it into URLs). -/
def qualityStr : Quality → String
  | .stable => "stable"
  | .insider => "insider"
  | .vscodiumInsider => "vscodium-insider"

/-- String value of the `Arch` enum (`Arch.X64 = 'x64'`, `Arch.Arm64 = 'arm64'`). -/
def archStr : Arch → String
  | .x64 => "x64"
  | .arm64 => "arm64"
  | .armhf => "armhf"

structure IBuildKind where
  runtime : Runtime
  quality : Quality
  flavor : Flavor
  platform : Option Platform
  arch : Option Arch
  deriving DecidableEq, Repr

/-- `IBuild extends IBuildKind` with `commit`, optional `date` (timestamp; ISO
strings are modelled as their parsed epoch value), optional `version` and the
VSCodium `assets` map (modelled as an association list). -/
structure IBuild extends IBuildKind where
  commit : String
  date : Option Int
  version : Option String
  assets : Option (List (String × String))
  deriving DecidableEq, Repr

structure IBuildMetadata where
  url : String
  version : String
  productVersion : String
  sha256hash : String
  deriving DecidableEq, Repr

/-- One record of a local history JSON file. -/
structure HistoryEntry where
  commit : String
  date : Option Int
  version : Option String
  assets : Option (List (String × String))
  deriving DecidableEq, Repr

/-- Errors thrown by `builds.ts` (each `throw new Error(...)`), carrying the
identifiers its message interpolates. -/
inductive BErr
  | netFail (msg : String)
  | referenceNotFound (good : Bool) (ref : String)
  | invalidRange (badRef goodRef : Option String)
  | resolution (dateRef : String)
  | integrity (expected computed : String)
  | missingAssets (version : Option String) (commit : String)
  | noAsset (plat : Platform) (version : Option String)
  | externalTool (tool : String)
  deriving DecidableEq, Repr

/-- Observable side effects, in program order. `netMeta`/`netCommits` are the
`jsonGet` calls, `fileGet` is the artifact download, `rm`/`unzip`/`spawn` are
the filesystem and subprocess effects, `logError`/`logExcluded` are the two
log lines that claims mention. -/
inductive Event
  | netMeta (url : String)
  | netCommits (url : String)
  | fileGet (url path : String)
  | rm (path : String)
  | unzip (path destination : String)
  | spawn (tool target : String)
  | patchProductJson (path : String)
  | logError (msg : String)
  | logExcluded (count : Nat)
  deriving DecidableEq, Repr

instance exceptDecEq {ε α} [DecidableEq ε] [DecidableEq α] : DecidableEq (Except ε α) := fun a b =>
  match a, b with
  | .error e, .error f =>
    if h : e = f then isTrue (congrArg Except.error h)
    else isFalse (fun hc => h (Except.error.inj hc))
  | .ok x, .ok y =>
    if h : x = y then isTrue (congrArg Except.ok h)
    else isFalse (fun hc => h (Except.ok.inj hc))
  | .error _, .ok _ => isFalse (fun hc => Except.noConfusion hc)
  | .ok _, .error _ => isFalse (fun hc => Except.noConfusion hc)

/-- The effect environment: host globals and the outcome of every external
primitive the pipeline calls. -/
structure Env where
  hostPlatform : Platform
  hostArch : Arch
  cwd : String
  pathExists : String → Bool
  jsonGetMeta : String → Except String IBuildMetadata
  jsonGetCommits : String → Except String (List String)
  readHistoryFile : String → Except String (List HistoryEntry)
  computeSHA256 : String → String
  dateCtor : Nat → Int → Nat → Int
  spawnUnzipFails : String → Bool

/-- `path.join` for the two-segment joins used here. -/
def joinPath (a b : String) : String := a ++ "/" ++ b

/-- Worker for `splitChar`: structural recursion over the remaining
characters, accumulating the current segment in reverse. -/
def splitCharAux (sep : Char) : List Char → List Char → List String
  | [], acc => [String.mk acc.reverse]
  | c :: rest, acc =>
    if c = sep then String.mk acc.reverse :: splitCharAux sep rest []
    else splitCharAux sep rest (c :: acc)

/-- JS `str.split(sep)` for a single-character separator (every split in
`builds.ts` uses one: `'-'` and `'/'`). -/
def splitChar (sep : Char) (s : String) : List String :=
  splitCharAux sep s.toList []

/-- `path.dirname`. -/
def dirname (s : String) : String :=
  String.intercalate "/" (splitChar '/' s).dropLast

/-- Directory-name fragment of a flavor, used only for the cache key. -/
def flavorStr : Flavor → String
  | .default => "default"
  | .cli => "cli"
  | .darwinUniversal => "darwin-universal"
  | .windowsSystemInstaller => "win-system"
  | .windowsUserInstaller => "win-user"
  | .linuxDeb => "linux-deb"
  | .linuxRPM => "linux-rpm"
  | .linuxSnap => "linux-snap"
  | .dockerCli => "docker-cli"

/-- Modelled from the spec: `getBuildPath` of `files.ts` (not among the
sources) — the on-disk cache directory keyed by `(commit, quality, flavor)`. -/
def getBuildPath (commit : String) (q : Quality) (f : Flavor) : String :=
  ".vscode-bisect/" ++ commit ++ "-" ++ qualityStr q ++ "-" ++ flavorStr f

/-- `path.lastIndexOf('.zip')`: the largest index where `".zip"` starts, `-1`
if absent. -/
def lastIndexOfZip (s : String) : Int :=
  match ((List.range (s.length + 1)).filter
      (fun i => ".zip".toList.isPrefixOf (s.toList.drop i))).getLast? with
  | some i => (i : Int)
  | none => -1

/-- `path.substring(0, path.lastIndexOf('.zip'))` (JS `substring` clamps a
negative end to `0`). -/
def stripZip (s : String) : String :=
  String.mk (s.toList.take (lastIndexOfZip s).toNat)

/-- JS `arr.slice(start, stop)` for the non-negative indices reachable here. -/
def jsSlice {α} (l : List α) (start stop : Int) : List α :=
  (l.take stop.toNat).drop start.toNat

/-- `needle` occurs as a contiguous substring of `hay`. -/
def strContains (hay needle : String) : Bool :=
  (List.range (hay.length + 1)).any
    (fun i => needle.toList.isPrefixOf (hay.toList.drop i))

/-- `effectivePlatform = buildPlatform ?? platform`. -/
def effPlatform (env : Env) (k : IBuildKind) : Platform := k.platform.getD env.hostPlatform

/-- `effectiveArch = buildArch ?? arch`. -/
def effArch (env : Env) (k : IBuildKind) : Arch := k.arch.getD env.hostArch

/-- `getBuildApiName` (builds.ts:199-231). -/
def getBuildApiName (env : Env) (k : IBuildKind) : String :=
  let ep := effPlatform env k
  let ea := effArch env k
  if k.runtime = .webLocal ∨ k.runtime = .webRemote then
    match ep with
    | .macOSX64 | .macOSArm => "server-darwin-web"
    | .linuxX64 | .linuxArm => "server-linux-" ++ archStr ea ++ "-web"
    | .windowsX64 | .windowsArm => "server-win32-" ++ archStr ea ++ "-web"
  else
    match ep with
    | .macOSX64 => if k.flavor = .darwinUniversal then "darwin-universal" else "darwin"
    | .macOSArm => if k.flavor = .darwinUniversal then "darwin-universal" else "darwin-" ++ archStr .arm64
    | .linuxX64 | .linuxArm => "linux-" ++ archStr ea
    | .windowsX64 | .windowsArm => "win32-" ++ archStr ea

/-- The Windows arm of the desktop switch in `getPlatformName`; `none` models
falling out of the switch into the CLI section. -/
def getPlatformNameDesktopWin (ea : Arch) (f : Flavor) : Option String :=
  match f with
  | .default => some ("win32-" ++ archStr ea ++ "-archive")
  | .windowsUserInstaller => some ("win32-" ++ archStr ea ++ "-user")
  | .windowsSystemInstaller => some ("win32-" ++ archStr ea)
  | _ => none

/-- Desktop section of `getPlatformName` (builds.ts:524-554). The Linux case
has no `break`, so a flavor unmatched by the Linux switch falls through into
the Windows case's switch (JS fallthrough), and a flavor unmatched there
falls out to the CLI section (`none`). -/
def getPlatformNameDesktop (ep : Platform) (ea : Arch) (f : Flavor) : Option String :=
  if f = .cli then none
  else
    match ep with
    | .macOSX64 => some (if f = .darwinUniversal then "darwin-universal" else "darwin")
    | .macOSArm => some (if f = .darwinUniversal then "darwin-universal" else "darwin-" ++ archStr .arm64)
    | .linuxX64 | .linuxArm =>
      match f with
      | .default => some ("linux-" ++ archStr ea)
      | .linuxDeb => some ("linux-deb-" ++ archStr ea)
      | .linuxRPM => some ("linux-rpm-" ++ archStr ea)
      | .linuxSnap => some ("linux-snap-" ++ archStr ea)
      | _ => getPlatformNameDesktopWin ea f
    | .windowsX64 | .windowsArm => getPlatformNameDesktopWin ea f

/-- CLI section of `getPlatformName` (builds.ts:556-567). -/
def getPlatformNameCli (ep : Platform) (ea : Arch) : String :=
  match ep with
  | .macOSX64 | .macOSArm => "cli-darwin-" ++ archStr ea
  | .linuxX64 | .linuxArm => "cli-linux-" ++ archStr ea
  | .windowsX64 | .windowsArm => "cli-win32-" ++ archStr ea

/-- `getPlatformName` (builds.ts:504-568). -/
def getPlatformName (env : Env) (k : IBuildKind) : String :=
  let ep := effPlatform env k
  let ea := effArch env k
  if k.runtime = .webLocal ∨ k.runtime = .webRemote then
    match ep with
    | .macOSX64 => "server-darwin-web"
    | .macOSArm => "server-darwin-" ++ archStr .arm64 ++ "-web"
    | .linuxX64 | .linuxArm => "server-linux-" ++ archStr ea ++ "-web"
    | .windowsX64 | .windowsArm => "server-win32-" ++ archStr ea ++ "-web"
  else
    match getPlatformNameDesktop ep ea k.flavor with
    | some name => name
    | none => getPlatformNameCli ep ea

/-- Server arm of `getBuildDownloadName` (builds.ts:389-401). -/
def serverDownloadName (ep : Platform) (ea : Arch) : String :=
  match ep with
  | .macOSX64 | .macOSArm => "vscode-server-darwin-" ++ archStr ea ++ "-web.zip"
  | .linuxX64 | .linuxArm => "vscode-server-linux-" ++ archStr ea ++ "-web.tar.gz"
  | .windowsX64 | .windowsArm => "vscode-server-win32-" ++ archStr ea ++ "-web.zip"

/-- CLI section of `getBuildDownloadName` (builds.ts:429-442). -/
def cliDownloadName (ep : Platform) : String :=
  match ep with
  | .macOSX64 => "vscode_cli_darwin_x64_cli.zip"
  | .macOSArm => "vscode_cli_darwin_arm64_cli.zip"
  | .linuxX64 => "vscode_cli_linux_x64_cli.tar.gz"
  | .linuxArm => "vscode_cli_linux_arm64_cli.tar.gz"
  | .windowsX64 => "vscode_cli_win32_x64_cli.zip"
  | .windowsArm => "vscode_cli_win32_arm64_cli.zip"

/-- The version-metadata API URL for a commit and platform name. -/
def metaUrl (commit platformName quality : String) : String :=
  "https://update.code.visualstudio.com/api/versions/commit:" ++ commit
    ++ "/" ++ platformName ++ "/" ++ quality

/-- First URL tried by `fetchBuildMeta`. -/
def metaUrl1 (env : Env) (b : IBuild) : String :=
  metaUrl b.commit (getPlatformName env b.toIBuildKind) (qualityStr b.quality)

/-- Retry URL of `fetchBuildMeta`: same query with the Intel macOS platform
and x64 arch substituted. -/
def metaUrl2 (env : Env) (b : IBuild) : String :=
  metaUrl b.commit
    (getPlatformName env { b.toIBuildKind with platform := some .macOSX64, arch := some .x64 })
    (qualityStr b.quality)

/-- `fetchBuildMeta` (builds.ts:486-502): query the version-metadata API; on
failure, if the effective platform is macOS ARM64 and quality is stable, retry
once with the Intel macOS platform/arch; if the retry also fails, rethrow the
original error. -/
def fetchBuildMeta (env : Env) (b : IBuild) : Except String IBuildMetadata × List Event :=
  let url1 := metaUrl1 env b
  match env.jsonGetMeta url1 with
  | .ok m => (.ok m, [.netMeta url1])
  | .error e =>
    let ep := b.platform.getD env.hostPlatform
    if ep = .macOSArm ∧ b.quality = .stable then
      let url2 := metaUrl2 env b
      match env.jsonGetMeta url2 with
      | .ok m => (.ok m, [.netMeta url1, .netMeta url2])
      | .error _ => (.error e, [.netMeta url1, .netMeta url2])
    else
      (.error e, [.netMeta url1])

/-- `getBuildDownloadName` (builds.ts:384-443). For desktop Linux and Windows
(non-CLI flavors) the name needs the fetched metadata, so this function itself
performs network calls; a Windows flavor unmatched by the inner switch falls
out of the desktop switch into the CLI section (keeping the already-performed
fetch in its trace). -/
def getBuildDownloadName (env : Env) (b : IBuild) : Except String String × List Event :=
  let ep := b.platform.getD env.hostPlatform
  let ea := b.arch.getD env.hostArch
  if b.runtime = .webLocal ∨ b.runtime = .webRemote then
    (.ok (serverDownloadName ep ea), [])
  else if b.flavor ≠ .cli then
    match ep with
    | .macOSX64 =>
      (.ok (if b.flavor = .darwinUniversal then "VSCode-darwin-universal.zip" else "VSCode-darwin.zip"), [])
    | .macOSArm =>
      (.ok (if b.flavor = .darwinUniversal then "VSCode-darwin-universal.zip"
            else "VSCode-darwin-" ++ archStr .arm64 ++ ".zip"), [])
    | .linuxX64 | .linuxArm =>
      match fetchBuildMeta env b with
      | (.error e, evs) => (.error e, evs)
      | (.ok m, evs) => (.ok ((splitChar '/' m.url).getLastD ""), evs)
    | .windowsX64 | .windowsArm =>
      match fetchBuildMeta env b with
      | (.error e, evs) => (.error e, evs)
      | (.ok m, evs) =>
        match b.flavor with
        | .default => (.ok ("VSCode-win32-" ++ archStr ea ++ "-" ++ m.productVersion ++ ".zip"), evs)
        | .windowsSystemInstaller => (.ok ("VSCodeSetup-" ++ archStr ea ++ "-" ++ m.productVersion ++ ".exe"), evs)
        | .windowsUserInstaller => (.ok ("VSCodeUserSetup-" ++ archStr ea ++ "-" ++ m.productVersion ++ ".exe"), evs)
        | _ => (.ok (cliDownloadName ep), evs)
  else
    (.ok (cliDownloadName ep), [])

/-- History file per quality tier (builds.ts:38-44). -/
def historyFileName : Quality → String
  | .vscodiumInsider => "vscodium_insider_history.json"
  | .insider => "vscode_insider_history.json"
  | .stable => "vscode_stable_history.json"

/-- `loadHistory` (builds.ts:38-59): read and parse the local history JSON
(stored oldest-first) and reverse it to newest-first; an unreadable or corrupt
file is logged and treated as an empty history. -/
def loadHistory (env : Env) (q : Quality) : List HistoryEntry × List Event :=
  let path := joinPath env.cwd (historyFileName q)
  match env.readHistoryFile path with
  | .ok history => (history.reverse, [])
  | .error e => ([], [.logError ("Failed to load history from " ++ path ++ ": " ++ e)])

/-- `{ runtime, quality, flavor }` destructuring of a kind: the TS call sites
drop `platform`/`arch`. -/
def stripKind (k : IBuildKind) : IBuildKind :=
  { runtime := k.runtime, quality := k.quality, flavor := k.flavor, platform := none, arch := none }

/-- `{ runtime, commit, quality, flavor }` destructuring of a build
(builds.ts:234): `platform`/`arch` (and `date`/`version`/`assets`) are
dropped, so downstream naming and metadata lookups use the host platform. -/
def stripBuild (b : IBuild) : IBuild :=
  { runtime := b.runtime, quality := b.quality, flavor := b.flavor,
    platform := none, arch := none,
    commit := b.commit, date := none, version := none, assets := none }

/-- The discovery-API arm of `fetchAllBuilds` (builds.ts:191-196). -/
def discoverBuilds (env : Env) (k : IBuildKind) (releasedOnly : Bool) :
    Except BErr (List IBuild) × List Event :=
  let url := "https://update.code.visualstudio.com/api/commits/" ++ qualityStr k.quality
    ++ "/" ++ getBuildApiName env k ++ "?released=" ++ (if releasedOnly then "true" else "false")
  match env.jsonGetCommits url with
  | .ok commits =>
    (.ok (commits.map (fun c =>
      { toIBuildKind := k, commit := c, date := none, version := none, assets := none })),
     [.netCommits url])
  | .error e => (.error (.netFail e), [.netCommits url])

/-- `fetchAllBuilds` (builds.ts:181-197): use the local history unless
`useDiscovery` is set or the history is empty, in which case fall back to the
remote commits API. Its TS signature destructures `{ runtime, quality,
flavor }`, so `platform`/`arch` of the incoming kind are dropped both in the
discovery URL and in the produced builds. -/
def fetchAllBuilds (env : Env) (k : IBuildKind) (releasedOnly useDiscovery : Bool) :
    Except BErr (List IBuild) × List Event :=
  let ks := stripKind k
  if ¬useDiscovery then
    let he := loadHistory env ks.quality
    if 0 < he.1.length then
      (.ok (he.1.map (fun h =>
        { toIBuildKind := ks, commit := h.commit, date := h.date, version := h.version, assets := h.assets })),
       he.2)
    else
      let d := discoverBuilds env ks releasedOnly
      (d.1, he.2 ++ d.2)
  else
    discoverBuilds env ks releasedOnly

/-- One- or two-digit run of digits (a `\d{1,2}` component). -/
def isDigits1to2 (s : String) : Bool :=
  (s.length = 1 ∨ s.length = 2) ∧ s.toList.all Char.isDigit

/-- The date-reference regex `^\d{1,2}-\d{1,2}-\d{4}$` (builds.ts:84). -/
def isDateRef (s : String) : Bool :=
  match splitChar '-' s with
  | [d, m, y] => isDigits1to2 d ∧ isDigits1to2 m ∧ (y.length = 4 ∧ y.toList.all Char.isDigit)
  | _ => false

/-- JS `Number(component)` for the digit-only components the date regex
admits. -/
def strToNat (s : String) : Nat :=
  s.toList.foldl (fun acc c => acc * 10 + (c.toNat - 48)) 0

/-- Lines 138-139 of builds.ts: split `DD-MM-YYYY`, convert the components
with `Number`, and build the target time with the `Date(year, month-1, day)`
constructor (an external primitive, `env.dateCtor`). -/
def parseDateRef (dateCtor : Nat → Int → Nat → Int) (s : String) : Int :=
  match (splitChar '-' s).map strToNat with
  | [d, m, y] => dateCtor y ((m : Int) - 1) d
  | _ => 0

/-- `Number.MAX_VALUE` as an exact integer: `(2^53 - 1) * 2^971` (computed in
`Nat`, where the kernel evaluates powers efficiently). -/
def numberMaxValue : Int := ((2 ^ 1024 - 2 ^ 971 : Nat) : Int)

/-- JS truthiness of `build.date` in `if (!build.date) continue;`:
`undefined` and the number `0` are falsy. -/
def dateTruthy : Option Int → Bool
  | none => false
  | some d => d != 0

/-- `Math.abs(buildTime - targetTime)` for a build (its `date` read as a
timestamp; only truthy-dated builds ever reach this computation). -/
def buildDiff (target : Int) (b : IBuild) : Int :=
  ((b.date.getD 0) - target).natAbs

/-- The scan loop of `resolveDateToBuild` (builds.ts:144-159): walk the list
keeping the best (strictly smaller distance) dated build, starting from
`minDiff = Number.MAX_VALUE`. -/
def resolveLoop (target : Int) : List IBuild → Option IBuild → Int → Option IBuild × Int
  | [], best, minDiff => (best, minDiff)
  | b :: rest, best, minDiff =>
    if dateTruthy b.date then
      let diff := buildDiff target b
      if diff < minDiff then resolveLoop target rest (some b) diff
      else resolveLoop target rest best minDiff
    else
      resolveLoop target rest best minDiff

/-- `resolveDateToBuild` (builds.ts:136-168). -/
def resolveDateToBuild (dateCtor : Nat → Int → Nat → Int) (dateStr : String)
    (builds : List IBuild) : Except BErr String :=
  let target := parseDateRef dateCtor dateStr
  match (resolveLoop target builds none numberMaxValue).1 with
  | some b => .ok b.commit
  | none => .error (.resolution dateStr)

/-- `indexOf` (builds.ts:170-179): index of the first build with the given
commit. -/
def indexOf (commit : String) : List IBuild → Option Nat
  | [] => none
  | b :: rest =>
    if b.commit = commit then some 0
    else (indexOf commit rest).map (· + 1)

/-- Lines 84-118 of `fetchBuilds`: date-reference resolution, index defaults
and resolution, the `badIndex >= goodIndex` invariant check, and the slice. -/
def resolveRangeCore (dateCtor : Nat → Int → Nat → Int) (allBuilds : List IBuild)
    (goodCommit badCommit : Option String) : Except BErr (List IBuild) :=
  let resolveRef : Option String → Except BErr (Option String) := fun r =>
    match r with
    | some s => if isDateRef s then (resolveDateToBuild dateCtor s allBuilds).map some else .ok (some s)
    | none => .ok none
  match resolveRef goodCommit with
  | .error e => .error e
  | .ok goodC =>
    match resolveRef badCommit with
    | .error e => .error e
    | .ok badC =>
      let goodIdxE : Except BErr Int :=
        match goodC with
        | none => .ok ((allBuilds.length : Int) - 1)
        | some g =>
          match indexOf g allBuilds with
          | none => .error (.referenceNotFound true g)
          | some i => .ok (i : Int)
      match goodIdxE with
      | .error e => .error e
      | .ok goodIdx =>
        let badIdxE : Except BErr Int :=
          match badC with
          | none => .ok 0
          | some s =>
            match indexOf s allBuilds with
            | none => .error (.referenceNotFound false s)
            | some i => .ok (i : Int)
        match badIdxE with
        | .error e => .error e
        | .ok badIdx =>
          if goodIdx ≤ badIdx then .error (.invalidRange badC goodC)
          else .ok (jsSlice allBuilds badIdx (goodIdx + 1))

/-- Lines 120-130 of `fetchBuilds`: drop builds whose commit is in
`excludeCommits` and log the removed count when anything was removed. -/
def applyExclude (range : List IBuild) (excludeCommits : List String) :
    List IBuild × List Event :=
  if 0 < excludeCommits.length then
    let filtered := range.filter (fun b => !(excludeCommits.contains b.commit))
    if filtered.length ≠ range.length then
      (filtered, [.logExcluded (range.length - filtered.length)])
    else
      (filtered, [])
  else
    (range, [])

/-- The post-load part of `fetchBuilds` (builds.ts:84-133). -/
def resolveRangePost (dateCtor : Nat → Int → Nat → Int) (allBuilds : List IBuild)
    (goodCommit badCommit : Option String) (excludeCommits : List String) :
    Except BErr (List IBuild) × List Event :=
  match resolveRangeCore dateCtor allBuilds goodCommit badCommit with
  | .error e => (.error e, [])
  | .ok range =>
    let fe := applyExclude range excludeCommits
    (.ok fe.1, fe.2)

/-- `fetchBuilds` (builds.ts:79-134), the spec's `resolveRange`. -/
def fetchBuilds (env : Env) (k : IBuildKind) (goodCommit badCommit : Option String)
    (releasedOnly : Bool) (excludeCommits : List String) (useDiscovery : Bool) :
    Except BErr (List IBuild) × List Event :=
  match fetchAllBuilds env (stripKind k) releasedOnly useDiscovery with
  | (.error e, evs) => (.error e, evs)
  | (.ok allBuilds, evs) =>
    let re := resolveRangePost env.dateCtor allBuilds goodCommit badCommit excludeCommits
    (re.1, evs ++ re.2)

/-- Lookup in the VSCodium `assets` map. -/
def lookupAsset (assets : List (String × String)) (key : String) : Option String :=
  (assets.find? (fun p => p.1 = key)).map (fun p => p.2)

/-- `product.json` location inside the extracted VSCodium bundle. -/
def productJsonPath (appPath : String) : String :=
  joinPath (joinPath (joinPath (joinPath appPath "Contents") "Resources") "app") "product.json"

/-- `downloadAndExtractVSCodium` (builds.ts:292-382). The asset URL is chosen
from the per-build asset map by the host platform (`!url` also treats an empty
string as missing); no branch selects a URL on Windows. macOS extraction
shells out to `unzip` and then patches/re-signs the bundle; those subprocess
and file-rewrite effects are recorded as events. -/
def downloadAndExtractVSCodium (env : Env) (b : IBuild) (forceReDownload : Bool) :
    Except BErr String × List Event :=
  match b.assets with
  | none => (.error (.missingAssets b.version b.commit), [])
  | some assets =>
    let urlExt : Option String × String :=
      if env.hostPlatform = .macOSArm then (lookupAsset assets "darwin_arm64", ".zip")
      else if env.hostPlatform = .macOSX64 then (lookupAsset assets "darwin_x64", ".zip")
      else if env.hostPlatform = .linuxX64 then (lookupAsset assets "linux_x64", ".tar.gz")
      else if env.hostPlatform = .linuxArm then (lookupAsset assets "linux_arm64", ".tar.gz")
      else (none, ".zip")
    let url := urlExt.1.getD ""
    if url = "" then
      (.error (.noAsset env.hostPlatform b.version), [])
    else
      let folder := getBuildPath b.commit b.quality b.flavor
      let zipPath := joinPath folder ("VSCodium-" ++ b.version.getD "undefined" ++ urlExt.2)
      if env.pathExists folder ∧ ¬forceReDownload then
        (.ok folder, [])
      else
        let rmEvs : List Event := if env.pathExists folder then [.rm folder] else []
        let dlEvs : List Event := [.fileGet url zipPath]
        if env.hostPlatform = .macOSArm ∨ env.hostPlatform = .macOSX64 then
          if env.spawnUnzipFails zipPath then
            (.error (.externalTool "unzip"), rmEvs ++ dlEvs ++ [.spawn "unzip" zipPath])
          else
            let appPath := joinPath folder "VSCodium.app"
            let postEvs : List Event :=
              if env.pathExists appPath then
                (if env.pathExists (productJsonPath appPath) then
                  [.patchProductJson (productJsonPath appPath)]
                 else [])
                ++ [.spawn "xattr" appPath, .spawn "codesign" appPath]
              else []
            (.ok folder, rmEvs ++ dlEvs ++ [.spawn "unzip" zipPath] ++ postEvs)
        else
          (.ok folder, rmEvs ++ dlEvs ++ [.unzip zipPath folder])

/-- `downloadAndExtractBuild` (builds.ts:233-290), the spec's `acquire`:
VSCodium quality delegates to the alternate channel; docker-CLI flavors return
no local path; otherwise compute the artifact name (which may itself fetch
metadata), return the cached path on a cache hit, delete the cache directory on
a forced re-download, then download, verify the SHA-256 checksum, and extract
unless the flavor is an installer. Line 234 destructures only
`{ runtime, commit, quality, flavor }`, so the name and metadata computations
receive the stripped build (the host platform governs). -/
def downloadAndExtractBuild (env : Env) (b : IBuild) (forceReDownload : Bool) :
    Except BErr (Option String) × List Event :=
  if b.quality = .vscodiumInsider then
    match downloadAndExtractVSCodium env b forceReDownload with
    | (.ok p, evs) => (.ok (some p), evs)
    | (.error e, evs) => (.error e, evs)
  else if isDockerCliFlavor b.flavor then
    (.ok none, [])
  else
    match getBuildDownloadName env (stripBuild b) with
    | (.error e, evs) => (.error (.netFail e), evs)
    | (.ok buildName, evs) =>
      let path := joinPath (getBuildPath b.commit b.quality b.flavor) buildName
      if env.pathExists path ∧ ¬forceReDownload then
        (.ok (some path), evs)
      else
        let rmEvs : List Event :=
          if env.pathExists path ∧ forceReDownload then
            [.rm (getBuildPath b.commit b.quality b.flavor)]
          else []
        match fetchBuildMeta env (stripBuild b) with
        | (.error e, evs2) => (.error (.netFail e), evs ++ rmEvs ++ evs2)
        | (.ok meta, evs2) =>
          let dlEvs : List Event := [.fileGet meta.url path]
          let computed := env.computeSHA256 path
          if meta.sha256hash ≠ computed then
            (.error (.integrity meta.sha256hash computed), evs ++ rmEvs ++ evs2 ++ dlEvs)
          else if b.flavor = .default ∨ b.flavor = .cli ∨ b.flavor = .darwinUniversal then
            let destination :=
              if (b.runtime = .desktopLocal ∨ b.runtime = .webLocal) ∧ b.flavor = .default
                  ∧ (env.hostPlatform = .windowsX64 ∨ env.hostPlatform = .windowsArm) then
                stripZip path
              else
                dirname path
            (.ok (some destination), evs ++ rmEvs ++ evs2 ++ dlEvs ++ [.unzip path destination])
          else
            (.ok (some path), evs ++ rmEvs ++ evs2 ++ dlEvs)

section Lemmas

/-- Slicing from the newest build to the oldest is the whole list. -/
theorem jsSlice_full {α} (l : List α) : jsSlice l 0 ((l.length : Int) - 1 + 1) = l := by
  have h : (((l.length : Int) - 1 + 1)).toNat = l.length := by omega
  simp [jsSlice, h]

theorem applyExclude_nil (range : List IBuild) : applyExclude range [] = (range, []) := by
  simp [applyExclude]

/-- The single-commit exclusion set behaves like an equality test. -/
theorem contains_single_eq (c : String) (b : IBuild) :
    (!([c].contains b.commit)) = !(b.commit == c) := by
  cases h : b.commit == c <;> simp [List.contains, List.elem, h]

/-- In a commit-distinct list, excluding one present commit drops exactly one
element; excluding an absent commit drops nothing. -/
theorem filter_single_exclude (range : List IBuild) (c : String)
    (hp : range.Pairwise (fun x y => x.commit ≠ y.commit)) :
    (c ∈ range.map (fun b => b.commit) →
      (range.filter (fun b => !([c].contains b.commit))).length + 1 = range.length)
    ∧ (c ∉ range.map (fun b => b.commit) →
      range.filter (fun b => !([c].contains b.commit)) = range) := by
  have hpred : range.filter (fun b => !([c].contains b.commit))
      = range.filter (fun b => !(b.commit == c)) :=
    List.filter_congr (fun b _ => contains_single_eq c b)
  rw [hpred]
  clear hpred
  induction range with
  | nil => simp
  | cons a l ih =>
    rcases List.pairwise_cons.mp hp with ⟨ha, hl⟩
    rcases ih hl with ⟨ih1, ih2⟩
    constructor
    · intro hmem
      by_cases hac : a.commit = c
      · -- the head is the excluded commit; nothing in the tail matches it
        have hfl : l.filter (fun b => !(b.commit == c)) = l := by
          apply List.filter_eq_self.mpr
          intro b hb
          have hne : b.commit ≠ c := fun hbc => ha b hb (by rw [hac, hbc])
          simp [hne]
        simp [List.filter_cons, hac, hfl]
      · have hcl : c ∈ l.map (fun b => b.commit) := by
          rcases List.mem_cons.mp hmem with h | h
          · exact absurd h.symm hac
          · exact h
        have := ih1 hcl
        simp only [List.filter_cons]
        have hkeep : (!(a.commit == c)) = true := by simp [hac]
        rw [hkeep]
        simp only [if_true, List.length_cons]
        omega
    · intro hnot
      have hac : ¬ (a.commit = c) := fun h => hnot (by simp [← h])
      have hcl : c ∉ l.map (fun b => b.commit) := fun h => hnot (by simp [h])
      simp [List.filter_cons, hac, ih2 hcl]

/-- Excluding `c :: ex` is excluding `ex` and then excluding `c`. -/
theorem contains_cons_not (x c : String) (ex : List String) :
    (!((c :: ex).contains x)) = ((!([c].contains x)) && (!(ex.contains x))) := by
  cases h1 : x == c <;> simp [List.contains, List.elem, h1]

/-- Adding one commit to the exclusion set: in a commit-distinct list, a
commit present in the list (and not already excluded) removes exactly one more
entry; a commit absent from the list changes nothing. -/
theorem filter_cons_exclude (range : List IBuild) (c : String) (ex : List String)
    (hp : range.Pairwise (fun x y => x.commit ≠ y.commit)) :
    (c ∈ range.map (fun b => b.commit) → c ∉ ex →
      (range.filter (fun b => !((c :: ex).contains b.commit))).length + 1
        = (range.filter (fun b => !(ex.contains b.commit))).length)
    ∧ (c ∉ range.map (fun b => b.commit) →
      range.filter (fun b => !((c :: ex).contains b.commit))
        = range.filter (fun b => !(ex.contains b.commit))) := by
  have hcomm : range.filter (fun b => !((c :: ex).contains b.commit))
      = (range.filter (fun b => !(ex.contains b.commit))).filter
          (fun b => !([c].contains b.commit)) := by
    rw [List.filter_filter]
    exact List.filter_congr (fun b _ => contains_cons_not b.commit c ex)
  have hsub : (range.filter (fun b => !(ex.contains b.commit))).Sublist range :=
    List.filter_sublist range
  have hpe : (range.filter (fun b => !(ex.contains b.commit))).Pairwise
      (fun x y => x.commit ≠ y.commit) := hp.sublist hsub
  rcases filter_single_exclude (range.filter (fun b => !(ex.contains b.commit))) c hpe
    with ⟨hpres, habs⟩
  constructor
  · intro hin hnex
    have hmemfe : c ∈ (range.filter (fun b => !(ex.contains b.commit))).map
        (fun b => b.commit) := by
      rcases List.mem_map.mp hin with ⟨b, hb, hbc⟩
      refine List.mem_map.mpr ⟨b, List.mem_filter.mpr ⟨hb, ?_⟩, hbc⟩
      have hbcc : b.commit = c := hbc
      rw [hbcc]
      simpa [List.contains] using hnex
    rw [hcomm]
    exact hpres hmemfe
  · intro hnin
    have hninfe : c ∉ (range.filter (fun b => !(ex.contains b.commit))).map
        (fun b => b.commit) := by
      intro hcmem
      apply hnin
      rcases List.mem_map.mp hcmem with ⟨b, hb, hbc⟩
      exact List.mem_map.mpr ⟨b, (List.mem_filter.mp hb).1, hbc⟩
    rw [hcomm]
    exact habs hninfe

end Lemmas

/-- C1 — For every history of N builds, `fetchBuilds` with no good and no bad
reference returns the full N-length list, for every N ≥ 0. REFUTED at N = 1:
the default indices are `goodIndex = 0 = length - 1` and `badIndex = 0`, so
the `badIndex >= goodIndex` check throws `InvalidRangeError` even though no
reference was given; the same happens at N = 0. This counterexample loads a
one-build history and gets the error instead of the one-build list. -/
theorem c1_counterexample :
    (fetchAllBuilds
        { hostPlatform := .linuxX64, hostArch := .x64, cwd := "/w",
          pathExists := fun _ => false,
          jsonGetMeta := fun _ => .error "offline",
          jsonGetCommits := fun _ => .error "offline",
          readHistoryFile := fun _ => .ok [{ commit := "only", date := some 10, version := none, assets := none }],
          computeSHA256 := fun _ => "", dateCtor := fun _ _ _ => 0,
          spawnUnzipFails := fun _ => false }
        (stripKind { runtime := .desktopLocal, quality := .stable, flavor := .default, platform := none, arch := none })
        false false).1
      = .ok [{ toIBuildKind := stripKind { runtime := .desktopLocal, quality := .stable, flavor := .default, platform := none, arch := none },
               commit := "only", date := some 10, version := none, assets := none }]
    ∧ (fetchBuilds
        { hostPlatform := .linuxX64, hostArch := .x64, cwd := "/w",
          pathExists := fun _ => false,
          jsonGetMeta := fun _ => .error "offline",
          jsonGetCommits := fun _ => .error "offline",
          readHistoryFile := fun _ => .ok [{ commit := "only", date := some 10, version := none, assets := none }],
          computeSHA256 := fun _ => "", dateCtor := fun _ _ _ => 0,
          spawnUnzipFails := fun _ => false }
        { runtime := .desktopLocal, quality := .stable, flavor := .default, platform := none, arch := none }
        none none false [] false).1
      = .error (.invalidRange none none) := by
  constructor <;> rfl

/-- C1 (amended) — `fetchBuilds` with no good and no bad reference returns the
full loaded N-build list, in the loaded newest-first order, whenever N ≥ 2;
for N ≤ 1 it instead fails with the `InvalidRangeError` (naming the two absent
references). -/
theorem c1_amended (env : Env) (k : IBuildKind) (bs : List IBuild) (evs : List Event)
    (releasedOnly useDiscovery : Bool)
    (h : fetchAllBuilds env (stripKind k) releasedOnly useDiscovery = (.ok bs, evs)) :
    (2 ≤ bs.length →
      fetchBuilds env k none none releasedOnly [] useDiscovery = (.ok bs, evs))
    ∧ (bs.length ≤ 1 →
      fetchBuilds env k none none releasedOnly [] useDiscovery
        = (.error (.invalidRange none none), evs)) := by
  constructor
  · intro hlen
    have hcond : ¬ ((bs.length : Int) - 1 ≤ 0) := by omega
    simp only [fetchBuilds, h, resolveRangePost, resolveRangeCore, hcond, if_neg,
      applyExclude_nil, jsSlice_full]
    simp [applyExclude_nil, jsSlice_full]
  · intro hlen
    have hcond : ((bs.length : Int) - 1 ≤ 0) := by omega
    simp only [fetchBuilds, h, resolveRangePost, resolveRangeCore]
    simp [hcond]

/-- Witness for C1 (amended): a concrete two-build history comes back whole. -/
theorem c1_amended_witness :
    fetchBuilds
      { hostPlatform := .linuxX64, hostArch := .x64, cwd := "/w",
        pathExists := fun _ => false,
        jsonGetMeta := fun _ => .error "offline",
        jsonGetCommits := fun _ => .error "offline",
        readHistoryFile := fun _ => .ok [{ commit := "old", date := some 10, version := none, assets := none },
                                         { commit := "new", date := some 20, version := none, assets := none }],
        computeSHA256 := fun _ => "", dateCtor := fun _ _ _ => 0,
        spawnUnzipFails := fun _ => false }
      { runtime := .desktopLocal, quality := .stable, flavor := .default, platform := none, arch := none }
      none none false [] false
    = (.ok [{ toIBuildKind := stripKind { runtime := .desktopLocal, quality := .stable, flavor := .default, platform := none, arch := none },
              commit := "new", date := some 20, version := none, assets := none },
            { toIBuildKind := stripKind { runtime := .desktopLocal, quality := .stable, flavor := .default, platform := none, arch := none },
              commit := "old", date := some 10, version := none, assets := none }], []) :=
  (c1_amended _ _ _ _ _ _ (by rfl)).1 (by decide)

/-- C3 — Over any loaded history, with both references resolving to indices
`gi` (good) and `bi` (bad): whenever `bi >= gi` (equality included)
`fetchBuilds` fails with the `InvalidRangeError` naming both references, and
whenever `bi < gi` it proceeds and the candidate range is the contiguous
newest-first inclusive slice `[bi, gi]` of the history. -/
theorem c3_invalid_range (env : Env) (k : IBuildKind) (bs : List IBuild) (evs : List Event)
    (releasedOnly useDiscovery : Bool) (g b : String) (gi bi : Nat)
    (h : fetchAllBuilds env (stripKind k) releasedOnly useDiscovery = (.ok bs, evs))
    (hg : isDateRef g = false) (hb : isDateRef b = false)
    (hgi : indexOf g bs = some gi) (hbi : indexOf b bs = some bi) :
    (gi ≤ bi →
      fetchBuilds env k (some g) (some b) releasedOnly [] useDiscovery
        = (.error (.invalidRange (some b) (some g)), evs))
    ∧ (bi < gi →
      fetchBuilds env k (some g) (some b) releasedOnly [] useDiscovery
        = (.ok (jsSlice bs (bi : Int) ((gi : Int) + 1)), evs)) := by
  constructor
  · intro hle
    have hc : ((gi : Int) ≤ (bi : Int)) := by exact_mod_cast hle
    simp [fetchBuilds, h, resolveRangePost, resolveRangeCore, hg, hb, hgi, hbi, hc]
  · intro hlt
    have hc : ¬ ((gi : Int) ≤ (bi : Int)) := by
      simp only [not_le]
      exact_mod_cast hlt
    simp [fetchBuilds, h, resolveRangePost, resolveRangeCore, hg, hb, hgi, hbi, hc,
      applyExclude_nil]

/-- Default kind used by the concrete examples. -/
def kDef : IBuildKind :=
  { runtime := .desktopLocal, quality := .stable, flavor := .default, platform := none, arch := none }

/-- An offline environment whose local history file holds the given entries. -/
def histEnv (entries : List HistoryEntry) : Env :=
  { hostPlatform := .linuxX64, hostArch := .x64, cwd := "/w",
    pathExists := fun _ => false,
    jsonGetMeta := fun _ => .error "offline",
    jsonGetCommits := fun _ => .error "offline",
    readHistoryFile := fun _ => .ok entries,
    computeSHA256 := fun _ => "", dateCtor := fun _ _ _ => 0,
    spawnUnzipFails := fun _ => false }

/-- A minimal history-loaded build. -/
def histBuild (c : String) (d : Option Int) : IBuild :=
  { toIBuildKind := stripKind kDef, commit := c, date := d, version := none, assets := none }

/-- Four-entry history file (oldest first, as stored on disk). -/
def histC3 : List HistoryEntry :=
  [{ commit := "d", date := none, version := none, assets := none },
   { commit := "c", date := none, version := none, assets := none },
   { commit := "b", date := none, version := none, assets := none },
   { commit := "a", date := none, version := none, assets := none }]

/-- The loaded (newest-first) form of `histC3`. -/
def bsC3 : List IBuild :=
  [histBuild "a" none, histBuild "b" none, histBuild "c" none, histBuild "d" none]

/-- Witness for C3: on a four-build history, good = `"c"` (index 2) and
bad = `"b"` (index 1) give the slice of indices 1-2. -/
theorem c3_invalid_range_witness :
    fetchBuilds (histEnv histC3) kDef (some "c") (some "b") false [] false
      = (.ok (jsSlice bsC3 ((1 : Nat) : Int) (((2 : Nat) : Int) + 1)), []) :=
  (c3_invalid_range (histEnv histC3) kDef bsC3 [] false false "c" "b" 2 1
    (by decide) (by decide) (by decide) (by decide) (by decide)).2 (by decide)

/-- C9 — Under commit-distinctness of the computed range, for every
`excludeCommits` list: `fetchBuilds` succeeds, returning the range with every
build whose commit is in the list removed, and the only side effect beyond
the load is a log line reporting the removed count (emitted exactly when
something was removed) — exclusion never raises an error; moreover, adding to
the exclusion set a commit present in the range (and not already excluded)
removes exactly one entry, decreasing the returned length by one, while
adding a commit absent from the range changes nothing. -/
theorem c9_exclusion (env : Env) (k : IBuildKind) (bs range : List IBuild) (evs : List Event)
    (releasedOnly useDiscovery : Bool) (goodRef badRef : Option String)
    (h : fetchAllBuilds env (stripKind k) releasedOnly useDiscovery = (.ok bs, evs))
    (hcore : resolveRangeCore env.dateCtor bs goodRef badRef = .ok range)
    (hp : range.Pairwise (fun x y => x.commit ≠ y.commit)) :
    (∀ ex : List String,
      fetchBuilds env k goodRef badRef releasedOnly ex useDiscovery
        = (.ok (range.filter (fun bb => !(ex.contains bb.commit))),
           evs ++ (if (range.filter (fun bb => !(ex.contains bb.commit))).length ≠ range.length
                   then [.logExcluded (range.length
                          - (range.filter (fun bb => !(ex.contains bb.commit))).length)]
                   else [])))
    ∧ ∀ (ex : List String) (c : String),
        (c ∈ range.map (fun bb => bb.commit) → c ∉ ex →
          (range.filter (fun bb => !((c :: ex).contains bb.commit))).length + 1
            = (range.filter (fun bb => !(ex.contains bb.commit))).length)
        ∧ (c ∉ range.map (fun bb => bb.commit) →
          range.filter (fun bb => !((c :: ex).contains bb.commit))
            = range.filter (fun bb => !(ex.contains bb.commit))) := by
  constructor
  · intro ex
    simp only [fetchBuilds, h, resolveRangePost, hcore]
    cases ex with
    | nil =>
      have hfr : range.filter (fun bb => !(([] : List String).contains bb.commit)) = range := by
        simp [List.contains, List.elem]
      rw [hfr]
      simp [applyExclude]
    | cons c0 ex0 =>
      simp only [applyExclude]
      rw [if_pos (by simp)]
      by_cases hlen : (range.filter
          (fun bb => !((c0 :: ex0).contains bb.commit))).length ≠ range.length
      · rw [if_pos hlen, if_pos hlen]
      · rw [if_neg hlen, if_neg hlen]
  · intro ex c
    exact filter_cons_exclude range c ex hp

/-- Three-entry history file (oldest first, as stored on disk). -/
def histC9 : List HistoryEntry :=
  [{ commit := "c", date := none, version := none, assets := none },
   { commit := "b", date := none, version := none, assets := none },
   { commit := "a", date := none, version := none, assets := none }]

/-- The loaded (newest-first) form of `histC9`. -/
def bsC9 : List IBuild :=
  [histBuild "a" none, histBuild "b" none, histBuild "c" none]

/-- Witness for C9: excluding `["b", "zz"]` from the three-build range removes
the one present commit, logs the count, and never errors; adding the present
commit `"b"` to the exclusion set `["zz"]` shrinks the result by one. -/
theorem c9_exclusion_witness :
    fetchBuilds (histEnv histC9) kDef none none false ["b", "zz"] false
      = (.ok (bsC9.filter (fun bb => !((["b", "zz"] : List String).contains bb.commit))),
         [] ++ (if (bsC9.filter
                  (fun bb => !((["b", "zz"] : List String).contains bb.commit))).length
                  ≠ bsC9.length
                then [.logExcluded (bsC9.length
                       - (bsC9.filter
                           (fun bb => !((["b", "zz"] : List String).contains bb.commit))).length)]
                else []))
    ∧ (bsC9.filter (fun bb => !((["b", "zz"] : List String).contains bb.commit))).length + 1
        = (bsC9.filter (fun bb => !((["zz"] : List String).contains bb.commit))).length :=
  ⟨(c9_exclusion (histEnv histC9) kDef bsC9 bsC9 [] false false none none
      (by decide) (by decide) (by decide)).1 ["b", "zz"],
   ((c9_exclusion (histEnv histC9) kDef bsC9 bsC9 [] false false none none
      (by decide) (by decide) (by decide)).2 ["zz"] "b").1 (by decide) (by decide)⟩

/-- C5 — If the metadata query fails and the effective platform is macOS ARM64
with stable quality, `fetchBuildMeta` retries exactly once against the Intel
macOS platform/x64 arch URL; if the retry also fails the original error (not
the retry's) is surfaced; in every other failure case the original error
propagates after the single query, with no retry. -/
theorem c5_meta_fallback (env : Env) (b : IBuild) (e : String)
    (h1 : env.jsonGetMeta (metaUrl1 env b) = .error e) :
    ((b.platform.getD env.hostPlatform = .macOSArm ∧ b.quality = .stable) →
      (∀ m, env.jsonGetMeta (metaUrl2 env b) = .ok m →
        fetchBuildMeta env b = (.ok m, [.netMeta (metaUrl1 env b), .netMeta (metaUrl2 env b)]))
      ∧ (∀ e2, env.jsonGetMeta (metaUrl2 env b) = .error e2 →
        fetchBuildMeta env b = (.error e, [.netMeta (metaUrl1 env b), .netMeta (metaUrl2 env b)])))
    ∧ (¬ (b.platform.getD env.hostPlatform = .macOSArm ∧ b.quality = .stable) →
      fetchBuildMeta env b = (.error e, [.netMeta (metaUrl1 env b)])) := by
  constructor
  · intro harm
    constructor
    · intro m h2
      simp [fetchBuildMeta, h1, harm, h2]
    · intro e2 h2
      simp [fetchBuildMeta, h1, harm, h2]
  · intro hnarm
    simp [fetchBuildMeta, h1, hnarm]

/-- Apple-silicon stable host, offline. -/
def envArm : Env :=
  { histEnv [] with
      hostPlatform := .macOSArm
      hostArch := .arm64 }

/-- `envArm` whose metadata endpoint fails with `"armFail"` on the ARM64 URL
and `"x64Fail"` on any other URL. -/
def envC5 : Env :=
  { envArm with
      jsonGetMeta := fun u =>
        if u = metaUrl1 envArm (histBuild "abc" none) then .error "armFail"
        else .error "x64Fail" }

/-- Witness for C5: with the first query failing and the Intel retry also
failing, the original error `"armFail"` (not `"x64Fail"`) is surfaced after
exactly two calls. -/
theorem c5_meta_fallback_witness :
    fetchBuildMeta envC5 (histBuild "abc" none)
    = (.error "armFail",
       [.netMeta (metaUrl1 envC5 (histBuild "abc" none)),
        .netMeta (metaUrl2 envC5 (histBuild "abc" none))]) :=
  ((c5_meta_fallback envC5 (histBuild "abc" none) "armFail" (by decide)).1
    (by decide)).2 "x64Fail" (by decide)

/-- C8 — A failing read or parse of the local history file is logged and
yields the empty history, and `fetchAllBuilds` (without `useDiscovery`) then
behaves exactly like the discovery path: its result is the discovery query's
result, so the history-load I/O error is never surfaced to the caller. -/
theorem c8_history_swallow (env : Env) (k : IBuildKind) (e : String)
    (releasedOnly : Bool)
    (h : env.readHistoryFile (joinPath env.cwd (historyFileName k.quality)) = .error e) :
    loadHistory env k.quality
      = ([], [.logError ("Failed to load history from "
          ++ joinPath env.cwd (historyFileName k.quality) ++ ": " ++ e)])
    ∧ (fetchAllBuilds env k releasedOnly false).1 = (fetchAllBuilds env k releasedOnly true).1
    ∧ (fetchAllBuilds env k releasedOnly false).2
      = .logError ("Failed to load history from "
          ++ joinPath env.cwd (historyFileName k.quality) ++ ": " ++ e)
        :: (fetchAllBuilds env k releasedOnly true).2 := by
  have hload : loadHistory env k.quality
      = ([], [.logError ("Failed to load history from "
          ++ joinPath env.cwd (historyFileName k.quality) ++ ": " ++ e)]) := by
    simp [loadHistory, h]
  refine ⟨hload, ?_, ?_⟩ <;>
    simp [fetchAllBuilds, stripKind, hload]

/-- Witness for C8: a corrupt history file degrades to the discovery query's
output (here: its network failure), with the load failure only logged. -/
theorem c8_history_swallow_witness :
    loadHistory { histEnv [] with readHistoryFile := fun _ => .error "corrupt" } kDef.quality
      = ([], [.logError ("Failed to load history from "
          ++ joinPath ({ histEnv [] with readHistoryFile := fun _ => .error "corrupt" } : Env).cwd
               (historyFileName kDef.quality) ++ ": " ++ "corrupt")])
    ∧ (fetchAllBuilds { histEnv [] with readHistoryFile := fun _ => .error "corrupt" } kDef false false).1
      = (fetchAllBuilds { histEnv [] with readHistoryFile := fun _ => .error "corrupt" } kDef false true).1
    ∧ (fetchAllBuilds { histEnv [] with readHistoryFile := fun _ => .error "corrupt" } kDef false false).2
      = .logError ("Failed to load history from "
          ++ joinPath ({ histEnv [] with readHistoryFile := fun _ => .error "corrupt" } : Env).cwd
               (historyFileName kDef.quality) ++ ": " ++ "corrupt")
        :: (fetchAllBuilds { histEnv [] with readHistoryFile := fun _ => .error "corrupt" } kDef false true).2 :=
  c8_history_swallow _ kDef "corrupt" false (by decide)

/-- C10 — On a Windows host platform, `downloadAndExtractVSCodium` fails with
the "no VSCodium asset found" error for every build carrying an assets map,
whatever the map contains, before performing any download (the trace is
empty): no Windows branch ever selects an asset URL. -/
theorem c10_vscodium_windows (env : Env) (b : IBuild) (m : List (String × String))
    (force : Bool)
    (hwin : env.hostPlatform = .windowsX64 ∨ env.hostPlatform = .windowsArm)
    (hassets : b.assets = some m) :
    downloadAndExtractVSCodium env b force
      = (.error (.noAsset env.hostPlatform b.version), []) := by
  rcases hwin with hw | hw <;>
    simp [downloadAndExtractVSCodium, hassets, hw]

/-- Witness for C10: a Windows host with a fully-populated assets map still
gets the missing-asset error and an empty effect trace. -/
theorem c10_vscodium_windows_witness :
    downloadAndExtractVSCodium
      { histEnv [] with hostPlatform := .windowsX64 }
      { runtime := .desktopLocal, quality := .vscodiumInsider, flavor := .default,
        platform := none, arch := none, commit := "vc", date := none,
        version := some "1.96",
        assets := some [("darwin_arm64", "https://u1"), ("darwin_x64", "https://u2"),
                        ("linux_x64", "https://u3"), ("linux_arm64", "https://u4"),
                        ("win32_x64", "https://u5")] }
      false
    = (.error (.noAsset .windowsX64 (some "1.96")), []) :=
  c10_vscodium_windows _ _ _ false (Or.inl rfl) rfl

/-- A string occurs inside the concatenation around it. -/
theorem strContains_append_mid (p a s : String) :
    strContains (p ++ a ++ s) a = true := by
  unfold strContains
  apply List.any_eq_true.mpr
  refine ⟨p.length, List.mem_range.mpr ?_, ?_⟩
  · have h1 : (p ++ a ++ s).length = p.length + a.length + s.length := by
      rw [String.length_append, String.length_append]
    omega
  · have hdata : (p ++ a ++ s).toList = p.data ++ (a.data ++ s.data) := by
      show (p ++ a ++ s).data = p.data ++ (a.data ++ s.data)
      rw [String.data_append, String.data_append, List.append_assoc]
    have hlen : p.length = p.data.length := rfl
    rw [hdata, hlen, List.drop_left]
    exact List.isPrefixOf_iff_prefix.mpr (List.prefix_append a.data s.data)

/-- C6 — For web-local/web-remote runtimes `getBuildApiName` returns a
`server-<os>-<arch>-web` form containing the effective architecture for every
platform. REFUTED for the macOS platforms: both return the fixed string
`"server-darwin-web"`, which contains neither `"x64"` nor `"arm64"`. -/
theorem c6_counterexample :
    getBuildApiName (histEnv [])
      { runtime := .webLocal, quality := .stable, flavor := .default,
        platform := some .macOSX64, arch := some .x64 }
      = "server-darwin-web"
    ∧ strContains
        (getBuildApiName (histEnv [])
          { runtime := .webLocal, quality := .stable, flavor := .default,
            platform := some .macOSX64, arch := some .x64 })
        (archStr .x64) = false
    ∧ getBuildApiName (histEnv [])
      { runtime := .webLocal, quality := .stable, flavor := .default,
        platform := some .macOSArm, arch := some .arm64 }
      = "server-darwin-web"
    ∧ strContains
        (getBuildApiName (histEnv [])
          { runtime := .webLocal, quality := .stable, flavor := .default,
            platform := some .macOSArm, arch := some .arm64 })
        (archStr .arm64) = false := by
  refine ⟨rfl, by decide, rfl, by decide⟩

/-- C6 (amended) — For web-local/web-remote runtimes `getBuildApiName` returns
`server-linux-<arch>-web` / `server-win32-<arch>-web` (containing the
effective architecture) on Linux and Windows platforms, but the fixed
arch-less `"server-darwin-web"` on both macOS platforms. -/
theorem c6_amended (env : Env) (k : IBuildKind)
    (hweb : k.runtime = .webLocal ∨ k.runtime = .webRemote) :
    ((effPlatform env k = .linuxX64 ∨ effPlatform env k = .linuxArm) →
      getBuildApiName env k = "server-linux-" ++ archStr (effArch env k) ++ "-web"
      ∧ strContains (getBuildApiName env k) (archStr (effArch env k)) = true)
    ∧ ((effPlatform env k = .windowsX64 ∨ effPlatform env k = .windowsArm) →
      getBuildApiName env k = "server-win32-" ++ archStr (effArch env k) ++ "-web"
      ∧ strContains (getBuildApiName env k) (archStr (effArch env k)) = true)
    ∧ ((effPlatform env k = .macOSX64 ∨ effPlatform env k = .macOSArm) →
      getBuildApiName env k = "server-darwin-web") := by
  refine ⟨?_, ?_, ?_⟩
  · rintro (hp | hp) <;>
      (have heq : getBuildApiName env k = "server-linux-" ++ archStr (effArch env k) ++ "-web" := by
        rcases hweb with hw | hw <;> simp [getBuildApiName, hw, hp]) <;>
      exact ⟨heq, heq ▸ strContains_append_mid "server-linux-" (archStr (effArch env k)) "-web"⟩
  · rintro (hp | hp) <;>
      (have heq : getBuildApiName env k = "server-win32-" ++ archStr (effArch env k) ++ "-web" := by
        rcases hweb with hw | hw <;> simp [getBuildApiName, hw, hp]) <;>
      exact ⟨heq, heq ▸ strContains_append_mid "server-win32-" (archStr (effArch env k)) "-web"⟩
  · rintro (hp | hp) <;> rcases hweb with hw | hw <;> simp [getBuildApiName, hw, hp]

/-- Witness for C6 (amended): a web-remote Linux ARM kind resolves to
`server-linux-<arch>-web` containing its arch. -/
theorem c6_amended_witness :
    getBuildApiName (histEnv [])
      { runtime := .webRemote, quality := .stable, flavor := .default,
        platform := some .linuxArm, arch := some .arm64 }
      = "server-linux-"
        ++ archStr (effArch (histEnv [])
            { runtime := .webRemote, quality := .stable, flavor := .default,
              platform := some .linuxArm, arch := some .arm64 })
        ++ "-web"
    ∧ strContains
        (getBuildApiName (histEnv [])
          { runtime := .webRemote, quality := .stable, flavor := .default,
            platform := some .linuxArm, arch := some .arm64 })
        (archStr (effArch (histEnv [])
          { runtime := .webRemote, quality := .stable, flavor := .default,
            platform := some .linuxArm, arch := some .arm64 })) = true :=
  (c6_amended (histEnv [])
    { runtime := .webRemote, quality := .stable, flavor := .default,
      platform := some .linuxArm, arch := some .arm64 }
    (Or.inr rfl)).1 (Or.inr (by decide))

/-- `fetchBuildMeta` performs one query, or two when the ARM64-stable retry
fires. -/
theorem fetchBuildMeta_events (env : Env) (b : IBuild) :
    (fetchBuildMeta env b).2 = [.netMeta (metaUrl1 env b)]
    ∨ (fetchBuildMeta env b).2 = [.netMeta (metaUrl1 env b), .netMeta (metaUrl2 env b)] := by
  unfold fetchBuildMeta
  rcases h : env.jsonGetMeta (metaUrl1 env b) with e | m
  · by_cases harm : b.platform.getD env.hostPlatform = .macOSArm ∧ b.quality = .stable
    · rcases h2 : env.jsonGetMeta (metaUrl2 env b) with e2 | m2 <;> simp [h, harm, h2]
    · simp [h, harm]
  · simp [h]

/-- The artifact-name computation performs no effects, or exactly the metadata
query's effects. -/
theorem getBuildDownloadName_events (env : Env) (b : IBuild) :
    (getBuildDownloadName env b).2 = []
    ∨ (getBuildDownloadName env b).2 = (fetchBuildMeta env b).2 := by
  unfold getBuildDownloadName
  by_cases hw : b.runtime = .webLocal ∨ b.runtime = .webRemote
  · simp [hw]
  · by_cases hcli : b.flavor = .cli
    · simp [hw, hcli]
    · rcases hm : fetchBuildMeta env b with ⟨r, evs⟩
      have hevs : (fetchBuildMeta env b).2 = evs := by rw [hm]
      cases hp : b.platform.getD env.hostPlatform <;>
        cases r <;>
        cases hf : b.flavor <;>
        simp_all [hw, hcli, hm, hp, hf]

/-- No branch of the name computation or the metadata fetch deletes anything:
their traces are free of `rm` events. -/
theorem no_rm_in_name_and_meta (env : Env) (b : IBuild) (p : String) :
    Event.rm p ∉ (getBuildDownloadName env b).2
    ∧ Event.rm p ∉ (fetchBuildMeta env b).2 := by
  have hmeta : Event.rm p ∉ (fetchBuildMeta env b).2 := by
    rcases fetchBuildMeta_events env b with h | h <;> rw [h] <;> simp
  refine ⟨?_, hmeta⟩
  rcases getBuildDownloadName_events env b with h | h <;> rw [h]
  · simp
  · exact hmeta

/-- C7 — When the downloaded artifact's computed SHA-256 differs from the
metadata's expected hash, `downloadAndExtractBuild` fails with the
`IntegrityError` naming both the expected and the computed value, and its
effect trace ends with the download (`fileGet`) and contains no `rm`: the
artifact is left on disk. -/
theorem c7_integrity (env : Env) (b : IBuild) (nm : String) (evs1 evs2 : List Event)
    (meta : IBuildMetadata) (c : String) (force : Bool)
    (hq : b.quality ≠ .vscodiumInsider)
    (hd : isDockerCliFlavor b.flavor = false)
    (hname : getBuildDownloadName env (stripBuild b) = (.ok nm, evs1))
    (hex : env.pathExists (joinPath (getBuildPath b.commit b.quality b.flavor) nm) = false)
    (hmeta : fetchBuildMeta env (stripBuild b) = (.ok meta, evs2))
    (hsha : env.computeSHA256 (joinPath (getBuildPath b.commit b.quality b.flavor) nm) = c)
    (hne : meta.sha256hash ≠ c) :
    downloadAndExtractBuild env b force
      = (.error (.integrity meta.sha256hash c),
         evs1 ++ evs2 ++ [.fileGet meta.url (joinPath (getBuildPath b.commit b.quality b.flavor) nm)])
    ∧ (∀ p, Event.rm p
        ∉ evs1 ++ evs2 ++ [.fileGet meta.url (joinPath (getBuildPath b.commit b.quality b.flavor) nm)])
    ∧ (evs1 ++ evs2
        ++ [Event.fileGet meta.url (joinPath (getBuildPath b.commit b.quality b.flavor) nm)]).getLast?
      = some (Event.fileGet meta.url (joinPath (getBuildPath b.commit b.quality b.flavor) nm)) := by
  refine ⟨?_, ?_, ?_⟩
  · simp [downloadAndExtractBuild, hq, hd, hname, hex, hmeta, hsha, hne]
  · intro p
    have h1 : evs1 = (getBuildDownloadName env (stripBuild b)).2 := by rw [hname]
    have h2 : evs2 = (fetchBuildMeta env (stripBuild b)).2 := by rw [hmeta]
    rcases no_rm_in_name_and_meta env (stripBuild b) p with ⟨hn1, hn2⟩
    simp only [List.append_assoc, List.mem_append, List.mem_singleton]
    rintro (hc | hc | hc)
    · exact hn1 (h1 ▸ hc)
    · exact hn2 (h2 ▸ hc)
    · exact Event.noConfusion hc
  · rw [List.getLast?_append]
    rfl

/-- Environment for the C7 witness: macOS x64 host, metadata says hash
`"aa"`, the downloaded file hashes to `"bb"`. -/
def envC7 : Env :=
  { histEnv [] with
      hostPlatform := .macOSX64
      jsonGetMeta := fun _ =>
        .ok { url := "https://h/VSCode-darwin.zip", version := "v",
              productVersion := "1.2.3", sha256hash := "aa" }
      computeSHA256 := fun _ => "bb" }

/-- Witness for C7: a mismatching checksum (`"aa"` expected, `"bb"` computed)
on a macOS desktop build yields the `IntegrityError` with a trace of one
metadata query followed by the download, no deletion. -/
theorem c7_integrity_witness :
    downloadAndExtractBuild envC7 (histBuild "abc" none) false
      = (.error (.integrity "aa" "bb"),
         ([] : List Event) ++ [.netMeta (metaUrl1 envC7 (stripBuild (histBuild "abc" none)))]
          ++ [.fileGet "https://h/VSCode-darwin.zip"
              (joinPath (getBuildPath "abc" .stable .default) "VSCode-darwin.zip")]) :=
  (c7_integrity envC7 (histBuild "abc" none) "VSCode-darwin.zip" []
    [.netMeta (metaUrl1 envC7 (stripBuild (histBuild "abc" none)))]
    { url := "https://h/VSCode-darwin.zip", version := "v",
      productVersion := "1.2.3", sha256hash := "aa" }
    "bb" false
    (by decide) (by decide) (by decide) (by decide) (by decide) (by decide) (by decide)).1

/-- Environment for the C2 counterexample: everything is cached on disk and
the metadata endpoint answers. -/
def envC2 : Env :=
  { histEnv [] with
      pathExists := fun _ => true
      jsonGetMeta := fun _ =>
        .ok { url := "https://h/code-1.tar.gz", version := "v",
              productVersion := "1.2.3", sha256hash := "aa" } }

/-- A Linux x64 desktop default-flavor build. -/
def bC2 : IBuild :=
  { runtime := .desktopLocal, quality := .stable, flavor := .default,
    platform := some .linuxX64, arch := some .x64,
    commit := "abc", date := none, version := none, assets := none }

/-- C2 — For every primary-channel, non-docker build with an existing cache
path and no forced re-download, `acquire` performs zero network calls and
returns the cached path. REFUTED on Linux (and Windows) hosts for desktop
non-CLI flavors: `downloadAndExtractBuild` strips the build to
`{ runtime, commit, quality, flavor }` and `getBuildDownloadName` then queries
the metadata endpoint *before* the cache check, so even a full cache hit
performs one network call (the cached path is still returned). -/
theorem c2_counterexample :
    bC2.quality ≠ .vscodiumInsider
    ∧ isDockerCliFlavor bC2.flavor = false
    ∧ envC2.pathExists (joinPath (getBuildPath "abc" .stable .default) "code-1.tar.gz") = true
    ∧ (downloadAndExtractBuild envC2 bC2 false).1
      = .ok (some (joinPath (getBuildPath "abc" .stable .default) "code-1.tar.gz"))
    ∧ (downloadAndExtractBuild envC2 bC2 false).2
      = [.netMeta (metaUrl1 envC2 (stripBuild bC2))]
    ∧ (downloadAndExtractBuild envC2 bC2 false).2 ≠ [] := by
  refine ⟨by decide, by decide, by decide, by decide, by decide, by decide⟩

/-- C2 (amended) — The acquire path drops the build's `platform`/`arch`
overrides (builds.ts:234 destructures `{ runtime, commit, quality, flavor }`),
so the *host* platform governs the artifact name. For a primary-channel,
non-docker build whose artifact name is computable without metadata — web
runtimes, macOS hosts, or the CLI flavor — a cache hit with no forced
re-download returns the cached path with zero network calls; on desktop
Linux/Windows hosts with non-CLI flavors the name computation performs a
metadata query even on a cache hit. -/
theorem c2_amended (env : Env) (b : IBuild)
    (hq : b.quality ≠ .vscodiumInsider)
    (hd : isDockerCliFlavor b.flavor = false)
    (hpure : b.runtime = .webLocal ∨ b.runtime = .webRemote
      ∨ env.hostPlatform = .macOSX64 ∨ env.hostPlatform = .macOSArm
      ∨ b.flavor = .cli) :
    ∃ nm, getBuildDownloadName env (stripBuild b) = (.ok nm, [])
      ∧ (env.pathExists (joinPath (getBuildPath b.commit b.quality b.flavor) nm) = true →
          downloadAndExtractBuild env b false
            = (.ok (some (joinPath (getBuildPath b.commit b.quality b.flavor) nm)), [])) := by
  have hname : ∃ nm, getBuildDownloadName env (stripBuild b) = (.ok nm, []) := by
    by_cases hw : b.runtime = .webLocal ∨ b.runtime = .webRemote
    · refine ⟨serverDownloadName env.hostPlatform env.hostArch, ?_⟩
      simp [getBuildDownloadName, stripBuild, hw]
    · by_cases hcli : b.flavor = .cli
      · refine ⟨cliDownloadName env.hostPlatform, ?_⟩
        simp [getBuildDownloadName, stripBuild, hw, hcli]
      · rcases hpure with h | h | h | h | h
        · exact absurd (Or.inl h) hw
        · exact absurd (Or.inr h) hw
        · refine ⟨if b.flavor = .darwinUniversal then "VSCode-darwin-universal.zip"
            else "VSCode-darwin.zip", ?_⟩
          simp [getBuildDownloadName, stripBuild, hw, hcli, h]
        · refine ⟨if b.flavor = .darwinUniversal then "VSCode-darwin-universal.zip"
            else "VSCode-darwin-" ++ archStr .arm64 ++ ".zip", ?_⟩
          simp [getBuildDownloadName, stripBuild, hw, hcli, h]
        · exact absurd h hcli
  rcases hname with ⟨nm, hnm⟩
  refine ⟨nm, hnm, fun hex => ?_⟩
  simp [downloadAndExtractBuild, hq, hd, hnm, hex]

/-- Witness for C2 (amended): on a macOS x64 host a cached desktop build is
returned with an empty effect trace. -/
theorem c2_amended_witness :
    ∃ nm, getBuildDownloadName { histEnv [] with hostPlatform := .macOSX64, pathExists := fun _ => true }
        (stripBuild (histBuild "abc" none))
        = (.ok nm, [])
      ∧ (({ histEnv [] with hostPlatform := .macOSX64, pathExists := fun _ => true } : Env).pathExists
            (joinPath (getBuildPath "abc" .stable .default) nm) = true →
          downloadAndExtractBuild
            { histEnv [] with hostPlatform := .macOSX64, pathExists := fun _ => true }
            (histBuild "abc" none) false
            = (.ok (some (joinPath (getBuildPath "abc" .stable .default) nm)), [])) :=
  c2_amended { histEnv [] with hostPlatform := .macOSX64, pathExists := fun _ => true }
    (histBuild "abc" none)
    (by decide) (by decide) (Or.inr (Or.inr (Or.inl rfl)))

/-- The first element of `l` attaining the minimum of `f` (ties keep the
earlier element). Spec-side characterization used to state C4. -/
def firstMinBy (f : IBuild → Int) : List IBuild → Option IBuild
  | [] => none
  | a :: l =>
    match firstMinBy f l with
    | none => some a
    | some w => if f a ≤ f w then some a else some w

theorem firstMinBy_eq_none {f : IBuild → Int} {l : List IBuild} :
    firstMinBy f l = none ↔ l = [] := by
  cases l with
  | nil => simp [firstMinBy]
  | cons a t =>
    rcases ht : firstMinBy f t with _ | v
    · simp [firstMinBy, ht]
    · simp only [firstMinBy, ht]
      split <;> simp

theorem firstMinBy_mem {f : IBuild → Int} :
    ∀ (l : List IBuild) (w : IBuild), firstMinBy f l = some w → w ∈ l := by
  intro l
  induction l with
  | nil => intro w h; simp [firstMinBy] at h
  | cons a t ih =>
    intro w h
    rcases ht : firstMinBy f t with _ | v
    · simp only [firstMinBy, ht] at h
      have hw : a = w := by simpa using h
      subst hw
      exact List.mem_cons_self a t
    · simp only [firstMinBy, ht] at h
      by_cases hle : f a ≤ f v
      · rw [if_pos hle] at h
        have hw : a = w := by simpa using h
        subst hw
        exact List.mem_cons_self a t
      · rw [if_neg hle] at h
        have hw : v = w := by simpa using h
        subst hw
        exact List.mem_cons_of_mem a (ih v ht)

theorem firstMinBy_min {f : IBuild → Int} :
    ∀ (l : List IBuild) (w : IBuild), firstMinBy f l = some w → ∀ b ∈ l, f w ≤ f b := by
  intro l
  induction l with
  | nil => intro w h; simp [firstMinBy] at h
  | cons a t ih =>
    intro w h
    rcases ht : firstMinBy f t with _ | v
    · have hte : t = [] := firstMinBy_eq_none.mp ht
      simp only [firstMinBy, ht] at h
      have hw : a = w := by simpa using h
      subst hw hte
      intro b hb
      have hba : b = a := by simpa using hb
      subst hba
      exact le_refl _
    · simp only [firstMinBy, ht] at h
      by_cases hle : f a ≤ f v
      · rw [if_pos hle] at h
        have hw : a = w := by simpa using h
        subst hw
        intro b hb
        rcases List.mem_cons.mp hb with hba | hbt
        · subst hba; exact le_refl _
        · exact le_trans hle (ih v ht b hbt)
      · rw [if_neg hle] at h
        have hw : v = w := by simpa using h
        subst hw
        intro b hb
        rcases List.mem_cons.mp hb with hba | hbt
        · subst hba; omega
        · exact ih v ht b hbt

theorem firstMinBy_first {f : IBuild → Int} :
    ∀ (l : List IBuild) (w : IBuild), firstMinBy f l = some w →
      ∃ l1 l2, l = l1 ++ w :: l2 ∧ ∀ b ∈ l1, f w < f b := by
  intro l
  induction l with
  | nil => intro w h; simp [firstMinBy] at h
  | cons a t ih =>
    intro w h
    rcases ht : firstMinBy f t with _ | v
    · simp only [firstMinBy, ht] at h
      have hw : a = w := by simpa using h
      subst hw
      exact ⟨[], t, rfl, by simp⟩
    · simp only [firstMinBy, ht] at h
      by_cases hle : f a ≤ f v
      · rw [if_pos hle] at h
        have hw : a = w := by simpa using h
        subst hw
        exact ⟨[], t, rfl, by simp⟩
      · rw [if_neg hle] at h
        have hw : v = w := by simpa using h
        subst hw
        rcases ih v ht with ⟨l1, l2, heq, hlt⟩
        refine ⟨a :: l1, l2, by simp [heq], ?_⟩
        intro b hb
        rcases List.mem_cons.mp hb with hba | hb1
        · subst hba; omega
        · exact hlt b hb1

/-- The scan loop of `resolveDateToBuild` computes exactly the first minimum
of `buildDiff` over the truthy-dated builds, provided it beats the starting
`minDiff`; otherwise it keeps the incoming accumulator. -/
theorem resolveLoop_eq (target : Int) :
    ∀ (l : List IBuild) (best : Option IBuild) (m : Int),
      resolveLoop target l best m =
        match firstMinBy (buildDiff target) (l.filter (fun b => dateTruthy b.date)) with
        | none => (best, m)
        | some w => if buildDiff target w < m then (some w, buildDiff target w) else (best, m) := by
  intro l
  induction l with
  | nil =>
    intro best m
    simp [resolveLoop, List.filter_nil, firstMinBy]
  | cons a t ih =>
    intro best m
    by_cases hd : dateTruthy a.date = true
    · rw [List.filter_cons_of_pos (by simpa using hd)]
      simp only [resolveLoop, hd, if_true]
      rcases hfm : firstMinBy (buildDiff target) (t.filter (fun b => dateTruthy b.date)) with _ | w
      · have hstep : firstMinBy (buildDiff target)
            (a :: t.filter (fun b => dateTruthy b.date)) = some a := by
          simp [firstMinBy, hfm]
        simp only [ih, hfm, hstep]
      · by_cases hle : buildDiff target a ≤ buildDiff target w
        · have hstep : firstMinBy (buildDiff target)
              (a :: t.filter (fun b => dateTruthy b.date)) = some a := by
            simp [firstMinBy, hfm, hle]
          simp only [ih, hfm, hstep]
          by_cases hm : buildDiff target a < m
          · rw [if_pos hm, if_neg (show ¬ buildDiff target w < buildDiff target a by omega),
              if_pos hm]
          · rw [if_neg hm, if_neg (show ¬ buildDiff target w < m by omega), if_neg hm]
        · have hstep : firstMinBy (buildDiff target)
              (a :: t.filter (fun b => dateTruthy b.date)) = some w := by
            simp [firstMinBy, hfm, hle]
          simp only [ih, hfm, hstep]
          by_cases hm : buildDiff target a < m
          · rw [if_pos hm, if_pos (show buildDiff target w < buildDiff target a by omega),
              if_pos (show buildDiff target w < m by omega)]
          · rw [if_neg hm]
    · rw [List.filter_cons_of_neg (by simpa using hd)]
      simp only [resolveLoop, hd, if_false]
      exact ih best m

/-- The build used by the C4 counterexample: its `date` is defined and equal
to the epoch origin `0`. -/
def bDate0 : IBuild := histBuild "d0" (some 0)

/-- C4 — Among the builds with a *defined* date, the minimum-distance one is
selected; only when no build has a date does resolution fail. REFUTED: the
loop guard is JS truthiness (`if (!build.date) continue`), so a build whose
date is the number `0` (the epoch origin) is skipped even though its date is
defined: with `[bDate0]` the resolver throws the `ResolutionError` instead of
returning `bDate0`'s commit. -/
theorem c4_counterexample :
    bDate0.date = some 0
    ∧ resolveDateToBuild (fun _ _ _ => 5) "1-1-2020" [bDate0]
      = .error (.resolution "1-1-2020") :=
  ⟨rfl, by decide⟩

set_option maxRecDepth 10000 in
/-- C4 (amended) — Among the builds whose date is defined *and JS-truthy*
(nonzero), the one with minimum absolute distance to the parsed reference time
is selected, ties broken by the first encountered in iteration order, and its
commit is returned; if no build has a truthy date, resolution fails with the
`ResolutionError` naming the date reference. (The distances are assumed below
`Number.MAX_VALUE`, the loop's starting minimum.) -/
theorem c4_amended (dc : Nat → Int → Nat → Int) (dateStr : String) (builds : List IBuild)
    (hsmall : ∀ b ∈ builds, dateTruthy b.date = true →
      buildDiff (parseDateRef dc dateStr) b < numberMaxValue) :
    (builds.filter (fun b => dateTruthy b.date) = [] →
      resolveDateToBuild dc dateStr builds = .error (.resolution dateStr))
    ∧ ∀ w, firstMinBy (buildDiff (parseDateRef dc dateStr))
          (builds.filter (fun b => dateTruthy b.date)) = some w →
        resolveDateToBuild dc dateStr builds = .ok w.commit
        ∧ w ∈ builds ∧ dateTruthy w.date = true
        ∧ (∀ b ∈ builds, dateTruthy b.date = true →
            buildDiff (parseDateRef dc dateStr) w ≤ buildDiff (parseDateRef dc dateStr) b)
        ∧ ∃ l1 l2, builds.filter (fun b => dateTruthy b.date) = l1 ++ w :: l2
            ∧ ∀ b ∈ l1, buildDiff (parseDateRef dc dateStr) w
                < buildDiff (parseDateRef dc dateStr) b := by
  constructor
  · intro hnil
    simp only [resolveDateToBuild]
    rw [resolveLoop_eq, hnil]
    rfl
  · intro w hw
    have hwmem := firstMinBy_mem _ w hw
    have hwb : w ∈ builds := (List.mem_filter.mp hwmem).1
    have hwd : dateTruthy w.date = true := by simpa using (List.mem_filter.mp hwmem).2
    have hws : buildDiff (parseDateRef dc dateStr) w < numberMaxValue := hsmall w hwb hwd
    have hgen : ∀ m : Int, buildDiff (parseDateRef dc dateStr) w < m →
        (resolveLoop (parseDateRef dc dateStr) builds none m).1 = some w := by
      intro m hm
      rw [resolveLoop_eq, hw]
      dsimp only
      rw [if_pos hm]
    have hres : resolveDateToBuild dc dateStr builds = .ok w.commit := by
      simp only [resolveDateToBuild]
      rw [hgen numberMaxValue hws]
    refine ⟨hres, hwb, hwd, ?_, ?_⟩
    · intro b hb hbd
      exact firstMinBy_min _ w hw b (List.mem_filter.mpr ⟨hb, by simpa using hbd⟩)
    · exact firstMinBy_first _ w hw

/-- Dated builds for the C4 witness (distances 2 and 88 from the target 12). -/
def bsC4 : List IBuild := [histBuild "w1" (some 10), histBuild "w2" (some 100)]

set_option maxRecDepth 10000 in
/-- Witness for C4 (amended): the nearer build `"w1"` is selected. -/
theorem c4_amended_witness :
    resolveDateToBuild (fun _ _ _ => 12) "1-1-1970" bsC4 = .ok (histBuild "w1" (some 10)).commit
    ∧ histBuild "w1" (some 10) ∈ bsC4
    ∧ dateTruthy (histBuild "w1" (some 10)).date = true
    ∧ (∀ b ∈ bsC4, dateTruthy b.date = true →
        buildDiff (parseDateRef (fun _ _ _ => 12) "1-1-1970") (histBuild "w1" (some 10))
          ≤ buildDiff (parseDateRef (fun _ _ _ => 12) "1-1-1970") b)
    ∧ ∃ l1 l2, bsC4.filter (fun b => dateTruthy b.date) = l1 ++ histBuild "w1" (some 10) :: l2
        ∧ ∀ b ∈ l1, buildDiff (parseDateRef (fun _ _ _ => 12) "1-1-1970") (histBuild "w1" (some 10))
            < buildDiff (parseDateRef (fun _ _ _ => 12) "1-1-1970") b :=
  (c4_amended (fun _ _ _ => 12) "1-1-1970" bsC4 (by decide)).2
    (histBuild "w1" (some 10)) (by decide)
